import Mathlib

/-!
Verification of the content-extraction and cleaning pipeline of the
`deepseek_search.py` / `doubao_search.py` scripts.

Strings are modelled as `List Char` (Python strings are sequences of Unicode
code points, and Lean `Char` is a Unicode scalar value).  The two scripts are
line-for-line identical in every function modelled here (only the custom
exception name, the URL substring and the tab-not-found message differ), so a
single embedding covers both.
-/

/-- Characters stripped by Python `str.strip()` (the Unicode White_Space set,
as used by CPython for `str.strip` with no argument). -/
def isPyWhitespace (c : Char) : Bool :=
  [0x09, 0x0a, 0x0b, 0x0c, 0x0d, 0x1c, 0x1d, 0x1e, 0x1f, 0x20, 0x85, 0xa0,
   0x1680, 0x2000, 0x2001, 0x2002, 0x2003, 0x2004, 0x2005, 0x2006, 0x2007,
   0x2008, 0x2009, 0x200a, 0x2028, 0x2029, 0x202f, 0x205f, 0x3000].contains c.toNat

/-- Characters matched by JavaScript `\s` and trimmed by `String.prototype.trim`
(ECMAScript WhiteSpace plus LineTerminator). -/
def isJsWhitespace (c : Char) : Bool :=
  [0x09, 0x0a, 0x0b, 0x0c, 0x0d, 0x20, 0xa0, 0x1680, 0x2000, 0x2001, 0x2002,
   0x2003, 0x2004, 0x2005, 0x2006, 0x2007, 0x2008, 0x2009, 0x200a, 0x2028,
   0x2029, 0x202f, 0x205f, 0x3000, 0xfeff].contains c.toNat

/-- Test for a CJK ideograph, the character class `[一-鿿]` used in
both scripts. -/
def isCJK (c : Char) : Bool :=
  0x4e00 ≤ c.toNat && c.toNat ≤ 0x9fff

/-- Test for the character class `[a-zA-Z0-9]` used in `clean_content`. -/
def isAlnumAscii (c : Char) : Bool :=
  (0x41 ≤ c.toNat && c.toNat ≤ 0x5a) || (0x61 ≤ c.toNat && c.toNat ≤ 0x7a) ||
    (0x30 ≤ c.toNat && c.toNat ≤ 0x39)

/-- Lowercasing of one character, modelling Python `str.lower` on the
characters the scripts' data actually contains.  Python's full Unicode case
mapping agrees with this map on ASCII and is likewise idempotent. -/
def pyToLower (c : Char) : Char :=
  if 0x41 ≤ c.toNat && c.toNat ≤ 0x5a then Char.ofNat (c.toNat + 32) else c

/-- Helper for `splitOnNl`: returns the first line and the remaining lines. -/
def splitOnNlAux : List Char → List Char × List (List Char)
  | [] => ([], [])
  | c :: cs =>
    if c = '\n' then ([], (splitOnNlAux cs).1 :: (splitOnNlAux cs).2)
    else (c :: (splitOnNlAux cs).1, (splitOnNlAux cs).2)

/-- Model of Python `content.split('\n')` (and of the JavaScript
`text.split('\n')`): split at every newline, keeping empty pieces. -/
def splitOnNl (s : List Char) : List (List Char) :=
  (splitOnNlAux s).1 :: (splitOnNlAux s).2

/-- Model of Python `str.strip()`: drop whitespace from both ends. -/
def pyStrip (s : List Char) : List Char :=
  List.rdropWhile isPyWhitespace (List.dropWhile isPyWhitespace s)

/-- Model of JavaScript `String.prototype.trim`. -/
def jsTrim (s : List Char) : List Char :=
  List.rdropWhile isJsWhitespace (List.dropWhile isJsWhitespace s)

/-- Model of the Python / JavaScript substring test `needle in hay` /
`hay.indexOf(needle) !== -1`. -/
def containsSub (needle : List Char) : List Char → Bool
  | [] => needle.isEmpty
  | c :: t => needle.isPrefixOf (c :: t) || containsSub needle t

/-- Model of `'\n\n'.join(lines)`. -/
def joinLines : List (List Char) → List Char
  | [] => []
  | [l] => l
  | l :: l' :: t => l ++ '\n' :: '\n' :: joinLines (l' :: t)

/-- Lowercase an entire line, modelling `line.lower()`. -/
def lowerLine (l : List Char) : List Char :=
  l.map pyToLower

/-- Shape of one entry of the scripts' fixed pattern lists.  Every regex in
those lists is either an exact whole-line match `^…$`, an anchored literal
match `^…`, or the one counted pattern `^参考 \d+ 篇资料$`. -/
inductive LinePat where
  | exact (s : String)
  | starts (s : String)
  | refCount

/-- Model of the regex `^参考 \d+ 篇资料$` (anchored whole-line match via
`re.match` with `$` at the end).  `\d+` is greedy and the tail starts with a
non-digit, so taking the maximal digit run is exact; `\d` is modelled as an
ASCII digit. -/
def matchRefCount (l : List Char) : Bool :=
  ("参考 ".toList).isPrefixOf l &&
    (let rest := l.drop ("参考 ".toList).length
     let ds := rest.takeWhile Char.isDigit
     !ds.isEmpty && (rest.drop ds.length == " 篇资料".toList))

/-- Whether a line matches one pattern (`re.match` anchors at line start; the
split lines contain no newline, so `$` is end of string). -/
def patMatch (p : LinePat) (l : List Char) : Bool :=
  match p with
  | LinePat.exact s => l == s.toList
  | LinePat.starts s => s.toList.isPrefixOf l
  | LinePat.refCount => matchRefCount l

/-- The `exclude_patterns` list of `clean_content`, in source order (including
the duplicated `^更多$`). -/
def exclude_patterns : List LinePat :=
  [LinePat.exact "新对话", LinePat.starts "AI 创作", LinePat.exact "云盘",
   LinePat.exact "更多", LinePat.exact "历史对话", LinePat.starts "抖音",
   LinePat.exact "快速", LinePat.exact "帮我写作", LinePat.exact "编程",
   LinePat.exact "深入研究", LinePat.exact "图像生成", LinePat.exact "解题答疑",
   LinePat.exact "更多", LinePat.exact "PPT 生成", LinePat.exact "免费",
   LinePat.refCount, LinePat.starts "ERROR:"]

/-- Whether a stripped line matches some pattern of `exclude_patterns`. -/
def matchesExclude (l : List Char) : Bool :=
  exclude_patterns.any (fun p => patMatch p l)

/-- The retention test of `clean_content` applied to a stripped line: not
excluded, longer than 10 characters, and containing a CJK ideograph or an
ASCII alphanumeric character. -/
def keepLine (l : List Char) : Bool :=
  !matchesExclude l && decide (10 < l.length) && (l.any isCJK || l.any isAlnumAscii)

/-- Processing of one raw line in the loop of `clean_content`: strip it, skip
it when empty, and keep it exactly when `keepLine` holds. -/
def lineKeep (raw : List Char) : Option (List Char) :=
  if (pyStrip raw).isEmpty then none
  else if keepLine (pyStrip raw) then some (pyStrip raw) else none

/-- The list `cleaned_lines` built by the loop of `clean_content`. -/
def cleanedLines (content : List Char) : List (List Char) :=
  (splitOnNl content).filterMap lineKeep

/-- The anchor loop of `clean_content`: find the first line whose lowercase
form contains the (already lowercased) query, and return that line together
with everything after it. -/
def anchorFrom (ql : List Char) : List (List Char) → Option (List (List Char))
  | [] => none
  | l :: rest =>
    if containsSub ql (lowerLine l) then some (l :: rest) else anchorFrom ql rest

/-- Model of `clean_content(content, query)` from both scripts.  `query = none`
models passing `None`; `some []` models the empty string (both are falsy in the
`if query and cleaned_lines` test). -/
def clean_content (content : List Char) (query : Option (List Char)) : List Char :=
  if content.isEmpty then content
  else
    let cleaned := cleanedLines content
    match query with
    | some q =>
      if !q.isEmpty && !cleaned.isEmpty then
        match anchorFrom (q.map pyToLower) cleaned with
        | some tail => joinLines tail
        | none => joinLines cleaned
      else joinLines cleaned
    | none => joinLines cleaned

/-- The ordered sequence of lines retained by `clean_content` — the spec's
"Cleaned Content".  `clean_content` equals `joinLines` of this list
(`clean_content_eq_joinLines`). -/
def clean_lines (content : List Char) (query : Option (List Char)) : List (List Char) :=
  if content.isEmpty then []
  else
    let cleaned := cleanedLines content
    match query with
    | some q =>
      if !q.isEmpty && !cleaned.isEmpty then
        (anchorFrom (q.map pyToLower) cleaned).getD cleaned
      else cleaned
    | none => cleaned

/-- Helper for `jsIndexOf`, carrying the current index. -/
def jsIndexOfAux (needle : List Char) : List Char → Nat → Option Nat
  | [], i => if needle.isEmpty then some i else none
  | c :: t, i => if needle.isPrefixOf (c :: t) then some i else jsIndexOfAux needle t (i + 1)

/-- Model of JavaScript `hay.indexOf(needle)`: `none` models `-1`. -/
def jsIndexOf (needle hay : List Char) : Option Nat :=
  jsIndexOfAux needle hay 0

/-- Model of JavaScript `hay.indexOf(needle, start)` for a non-empty needle
(all the end markers searched with a start offset are non-empty literals). -/
def jsIndexOfFrom (needle hay : List Char) (start : Nat) : Option Nat :=
  (jsIndexOf needle (hay.drop start)).map (· + start)

/-- The `endMarkers` array of the query-scoped page script. -/
def endMarkers : List (List Char) :=
  ["参考".toList, "我可以帮你".toList, "快速".toList, "帮我写作".toList,
   "编程".toList, "深入研究".toList]

/-- Helper for `collapseWs`; the flag records whether the previous character
was part of a whitespace run already replaced by a single space. -/
def collapseWsAux : List Char → Bool → List Char
  | [], _ => []
  | c :: t, prevWs =>
    if isJsWhitespace c then
      if prevWs then collapseWsAux t true else ' ' :: collapseWsAux t true
    else c :: collapseWsAux t false

/-- Model of JavaScript `s.replace(/\s+/g, " ")`: every maximal run of
whitespace becomes one space. -/
def collapseWs (s : List Char) : List Char :=
  collapseWsAux s false

/-- Model of the query-scoped page-context script of `extract_content`: locate
the query in the page text; if absent return the diagnostic string, otherwise
cut at the earliest end marker found from 50 characters past the match (or
5000 characters past the match if none), trim, and collapse whitespace. -/
def js_extract_query (text query : List Char) : List Char :=
  match jsIndexOf query text with
  | none => "ERROR: Query not found in page\n\nFull text:\n".toList ++ text.take 5000
  | some start =>
    let stop := endMarkers.foldl
      (fun acc m =>
        match jsIndexOfFrom m text (start + 50) with
        | none => acc
        | some p =>
          match acc with
          | none => some p
          | some e => if p < e then some p else acc)
      none
    let e := stop.getD (start + 5000)
    collapseWs (jsTrim ((text.drop start).take (e - start)))

/-- The `skipPatterns` array of the unscoped page-context script, in source
order (including the duplicated `^更多$`). -/
def js_skip_patterns : List LinePat :=
  [LinePat.exact "新对话", LinePat.starts "AI 创作", LinePat.exact "云盘",
   LinePat.exact "更多", LinePat.exact "历史对话", LinePat.starts "抖音",
   LinePat.exact "快速", LinePat.exact "帮我写作", LinePat.exact "编程",
   LinePat.exact "深入研究", LinePat.exact "图像生成", LinePat.exact "解题答疑",
   LinePat.exact "更多"]

/-- The `shouldSkip` test of the unscoped page-context script. -/
def jsShouldSkip (l : List Char) : Bool :=
  js_skip_patterns.any (fun p => patMatch p l)

/-- The retention test of the unscoped page-context script applied to a
trimmed line: not skipped, containing a CJK ideograph, longer than 20
characters. -/
def jsKeep (l : List Char) : Bool :=
  !jsShouldSkip l && l.any isCJK && decide (20 < l.length)

/-- The `contentLines` array built by the unscoped page-context script. -/
def generic_content_lines (text : List Char) : List (List Char) :=
  (splitOnNl text).filterMap (fun raw =>
    let l := jsTrim raw
    if l.isEmpty then none
    else if jsKeep l then some l else none)

/-- Model of the unscoped page-context script of `extract_content`: join the
surviving lines with blank lines, or fall back to the first 5000 characters of
the raw text when none survive. -/
def js_extract_generic (text : List Char) : List Char :=
  let contentLines := generic_content_lines text
  if !contentLines.isEmpty then joinLines contentLines else text.take 5000

/-- Model of the Python function `extract_content(query)` on the happy bridge
path: the tab is found and `osascript`'s standard output carries the
page-context script's string value (`execute_applescript` strips it).  An
`Except.error m` models `raise DeepSeekSearchError(m)` / `DoubaoSearchError(m)`
fired by the `if "ERROR:" in result` check; `Except.ok` models a normal
return.  `pageText` is the page's `document.body.innerText`. -/
def extract_content_onPage (pageText : List Char) (query : Option (List Char)) :
    Except (List Char) (List Char) :=
  let jsResult :=
    match query with
    | some q => if q.isEmpty then js_extract_generic pageText else js_extract_query pageText q
    | none => js_extract_generic pageText
  let result := pyStrip jsResult
  if containsSub ("ERROR:".toList) result then Except.error result else Except.ok result

/-- Outcome of the one `subprocess.run(['osascript', …])` call inside
`execute_applescript`: exit status 0 with standard output, a non-zero exit
(which `check=True` turns into `CalledProcessError` carrying standard error),
or any other raised exception. -/
inductive RunOutcome where
  | exitZero (stdout : List Char)
  | exitNonZero (stderr : List Char)
  | raised (msg : List Char)

/-- The exception alternatives distinguished by the two `except` clauses of
`execute_applescript`. -/
inductive SubprocExc where
  | calledProcessError (stderr : List Char)
  | otherExc (msg : List Char)

/-- Model of Python `try … finally`: the `handler` runs on the state whether
the body returned normally or raised (the body's exception is reified in the
`Except` component, which passes through unchanged). -/
def pyTryFinally (body : Bool → Bool × Except SubprocExc (List Char))
    (handler : Bool → Bool) (fs : Bool) : Bool × Except SubprocExc (List Char) :=
  let p := body fs
  (handler p.1, p.2)

/-- The `subprocess.run` step of `execute_applescript`: it does not touch the
temporary script file (the state component), and yields its outcome. -/
def subprocess_run_model (r : RunOutcome) (fs : Bool) :
    Bool × Except SubprocExc (List Char) :=
  (fs,
   match r with
   | RunOutcome.exitZero out => Except.ok out
   | RunOutcome.exitNonZero se => Except.error (SubprocExc.calledProcessError se)
   | RunOutcome.raised m => Except.error (SubprocExc.otherExc m))

/-- Outcome of the effectful steps of one `execute_applescript` invocation.
`tempfile.NamedTemporaryFile(mode='w', delete=False)` creates the file at
construction: `createRaised` models that construction itself raising (no file
exists yet); `writeRaised` models `f.write(script)` or the `with`-block
`close()` raising after the file was created — `temp_path` is then never
bound and the inner `try`/`finally` is never entered; `wrote` models the
write block finishing, after which the interpreter runs with outcome `r`. -/
inductive ExecOutcome where
  | createRaised (msg : List Char)
  | writeRaised (msg : List Char)
  | wrote (r : RunOutcome)

/-- State and result of one `execute_applescript` invocation: whether its
temporary script file exists when the invocation exits, and the returned
value or raised error. -/
structure ExecTrace where
  tempFileExists : Bool
  result : Except (List Char) (List Char)

/-- Model of `execute_applescript` including the temporary-file lifecycle.
On `wrote r` the file exists (state `true`) and the interpreter runs inside
`try … finally os.unlink(temp_path)`: a successful run returns
`stdout.strip()`, and the two `except` clauses convert a `CalledProcessError`
or any other exception into the script's custom error (`Except.error` carries
its message).  On `writeRaised m` the file was created but the inner
`finally` is never entered, so the file remains on exit and the generic
`except Exception` clause converts the error.  On `createRaised m` no file
was ever created. -/
def execute_applescript_fs (o : ExecOutcome) : ExecTrace :=
  match o with
  | ExecOutcome.createRaised m =>
    { tempFileExists := false
      result := Except.error ("Failed to execute AppleScript: ".toList ++ m) }
  | ExecOutcome.writeRaised m =>
    { tempFileExists := true
      result := Except.error ("Failed to execute AppleScript: ".toList ++ m) }
  | ExecOutcome.wrote r =>
    let afterTry := pyTryFinally (subprocess_run_model r) (fun _ => false) true
    { tempFileExists := afterTry.1
      result :=
        match afterTry.2 with
        | Except.ok out => Except.ok (pyStrip out)
        | Except.error (SubprocExc.calledProcessError se) =>
            Except.error ("AppleScript execution failed: ".toList ++ se)
        | Except.error (SubprocExc.otherExc m) =>
            Except.error ("Failed to execute AppleScript: ".toList ++ m) }

/-- The value returned (or error raised) by `execute_applescript`. -/
def execute_applescript (o : ExecOutcome) : Except (List Char) (List Char) :=
  (execute_applescript_fs o).result

/-- The exception alternatives distinguished by the two `except` clauses of
the orchestrator: the scripts' custom error type, or any other exception. -/
inductive PyExc where
  | searchError (msg : List Char)
  | other (msg : List Char)

/-- The error text the orchestrator stores: `str(e)` for the custom error and
`f"Unexpected error: {str(e)}"` for anything else. -/
def excText : PyExc → List Char
  | PyExc.searchError m => m
  | PyExc.other m => "Unexpected error: ".toList ++ m

/-- Model of `find_deepseek_tab` / `find_doubao_tab` over the bridge outcome:
a bridge failure propagates the custom error, and a bridge result containing
"ERROR:" is raised as the custom error; otherwise the result is returned. -/
def find_deepseek_tab (o : ExecOutcome) : Except PyExc (List Char) :=
  match execute_applescript o with
  | Except.error m => Except.error (PyExc.searchError m)
  | Except.ok res =>
    if containsSub ("ERROR:".toList) res then Except.error (PyExc.searchError res)
    else Except.ok res

/-- The Result Record returned by the orchestrator.  The wall-clock fields
`elapsed_time` and `timestamp` are real-time I/O and are not modelled; `none`
in `content` / `error` / `length` / `cleaned` models the key being absent from
the Python dictionary. -/
structure ResultRecord where
  success : Bool
  query : List Char
  content : Option (List Char)
  error : Option (List Char)
  length : Option Nat
  cleaned : Option Bool

/-- The failed Result Record built by both `except` clauses of the
orchestrator. -/
def failRecord (q msg : List Char) : ResultRecord :=
  { success := false, query := q, content := none, error := some msg,
    length := none, cleaned := none }

/-- Model of `search_deepseek` / `search_doubao`.  The locate and extract
steps perform bridge I/O, so their results are taken as parameters:
`Except.error e` models that step raising exception `e`, caught by the
orchestrator's `try` / `except` and converted via `excText`.  The cleaning
step is the pure `clean_content` and cannot raise.  Totality of this function
is the model of "no exception propagates out of the orchestrator". -/
def search_deepseek (tabStep extractStep : Except PyExc (List Char))
    (query : List Char) (clean : Bool) : ResultRecord :=
  match tabStep with
  | Except.error e => failRecord query (excText e)
  | Except.ok _ =>
    match extractStep with
    | Except.error e => failRecord query (excText e)
    | Except.ok content =>
      let finalContent := if clean then clean_content content (some query) else content
      { success := true, query := query, content := some finalContent, error := none,
        length := some finalContent.length, cleaned := some clean }

/-- Observable outcome of the command-line entry point: the process exit
status and what, if anything, is printed to the diagnostic stream. -/
structure CliOutcome where
  exitCode : Nat
  stderrText : Option (List Char)

/-- Model of `main()`: after the platform check, run the orchestrator; on a
failed record print `f"Error: {results['error']}"` to standard error and exit
with status 1, otherwise print the content and finish with status 0 (file
saving is plain I/O and out of scope). -/
def main_model (tabStep extractStep : Except PyExc (List Char))
    (query : List Char) (clean : Bool) (platformOk : Bool) : CliOutcome :=
  if !platformOk then
    { exitCode := 1, stderrText := some ("Error: This tool requires macOS".toList) }
  else
    let r := search_deepseek tabStep extractStep query clean
    if r.success then { exitCode := 0, stderrText := none }
    else { exitCode := 1, stderrText := some ("Error: ".toList ++ r.error.getD []) }

/-! Helper lemmas. -/

theorem pyToLower_toNat_shift (c : Char) (h : (0x41 ≤ c.toNat && c.toNat ≤ 0x5a) = true) :
    (pyToLower c).toNat = c.toNat + 32 := by
  simp only [Bool.and_eq_true, decide_eq_true_eq] at h
  have hv : (c.toNat + 32).isValidChar := Or.inl (by omega)
  simp only [pyToLower, Bool.and_eq_true, decide_eq_true_eq, if_pos h]
  rw [Char.ofNat, dif_pos hv]
  simp [Char.ofNatAux, Char.toNat, UInt32.toNat, BitVec.ofNatLt]

theorem pyToLower_idem (c : Char) : pyToLower (pyToLower c) = pyToLower c := by
  by_cases h : (0x41 ≤ c.toNat && c.toNat ≤ 0x5a) = true
  · have hshift := pyToLower_toNat_shift c h
    have hrange : ¬((0x41 ≤ (pyToLower c).toNat && (pyToLower c).toNat ≤ 0x5a) = true) := by
      simp only [Bool.and_eq_true, decide_eq_true_eq] at h ⊢
      omega
    conv => lhs; rw [pyToLower]
    rw [if_neg hrange]
  · have hc : pyToLower c = c := by rw [pyToLower, if_neg h]
    rw [hc, hc]

theorem map_pyToLower_idem (q : List Char) :
    (q.map pyToLower).map pyToLower = q.map pyToLower := by
  induction q with
  | nil => rfl
  | cons c t ih => simp [pyToLower_idem, ih]

/-! Claim theorems. -/

/-- C10: for every content string and every query string, the Cleaner's result
depends on the query only through its lowercase form:
`clean_content content (some q) = clean_content content (some (lower q))`. -/
theorem C10_query_case_insensitive (content q : List Char) :
    clean_content content (some q) = clean_content content (some (q.map pyToLower)) := by
  have h1 : (q.map pyToLower).isEmpty = q.isEmpty := by cases q <;> rfl
  simp only [clean_content, h1, map_pyToLower_idem]

/-- C9: in unscoped extraction, if no line of the page text survives the
filter (`generic_content_lines text = []`), the page script returns the first
5000 characters of the raw text, unmodified beyond slicing. -/
theorem C9_unscoped_fallback (text : List Char) (h : generic_content_lines text = []) :
    js_extract_generic text = text.take 5000 := by
  simp only [js_extract_generic, h]
  rfl

/-- Witness for C9 at the concrete page text "short" (no CJK line longer than
20 characters, so no line survives). -/
theorem C9_unscoped_fallback_witness :
    js_extract_generic ("short".toList) = "short".toList :=
  C9_unscoped_fallback ("short".toList) (by decide)

/-- C8 counterexample: when writing the temporary script file itself raises
(for example a disk-full error on flush/close), the file has already been
created by `NamedTemporaryFile(delete=False)` but `temp_path` is never bound
and the inner `try … finally` is never entered, so `os.unlink` never runs:
the invocation exits through the generic `except` clause with the temporary
file still present — an exit path of the invocation that leaves its temp file
behind, refuting "deleted on every exit path". -/
theorem C8_counterexample :
    (execute_applescript_fs
        (ExecOutcome.writeRaised ("No space left on device".toList))).tempFileExists =
      true ∧
    (execute_applescript_fs
        (ExecOutcome.writeRaised ("No space left on device".toList))).result =
      Except.error
        ("Failed to execute AppleScript: No space left on device".toList) :=
  ⟨rfl, rfl⟩

/-- C8 amended: once the temporary script file has been written and the
interpreter invocation begins, the `try … finally os.unlink(temp_path)`
deletes the file on every exit of that invocation — whether the external
interpreter succeeds, exits non-zero, or any other exception occurs during
the run; only a failure of the temp-file write itself, before the inner `try`
is entered, leaks the created file. -/
theorem C8_temp_file_deleted_after_write (r : RunOutcome) :
    (execute_applescript_fs (ExecOutcome.wrote r)).tempFileExists = false := by
  cases r <;> rfl

/-- C7: for content `"A\nquery line B\nC"` and query `"query"`, the cleaned
output starts at (and here consists exactly of) the line "query line B". -/
theorem C7_anchor_concrete :
    clean_content ("A\nquery line B\nC".toList) (some ("query".toList)) =
      "query line B".toList := by
  decide

/-- C4: whenever the locate step, or the extract step after a successful
locate, raises an exception `e`, the orchestrator returns the failed Result
Record carrying `excText e` — it never re-raises (`search_deepseek` is a total
function into `ResultRecord`). -/
theorem C4_orchestrator_converts_exceptions
    (tabStep extractStep : Except PyExc (List Char)) (q : List Char) (cl : Bool)
    (e : PyExc)
    (h : tabStep = Except.error e ∨ ∃ t, tabStep = Except.ok t ∧ extractStep = Except.error e) :
    search_deepseek tabStep extractStep q cl = failRecord q (excText e) := by
  rcases h with h | ⟨t, h1, h2⟩
  · rw [h]; rfl
  · rw [h1, h2]; rfl

/-- Witness for C4: a failed extract step after a successful locate step. -/
theorem C4_orchestrator_converts_exceptions_witness :
    search_deepseek (Except.ok ("SUCCESS".toList))
        (Except.error (PyExc.other ("boom".toList))) ("q".toList) true =
      failRecord ("q".toList) ("Unexpected error: boom".toList) :=
  C4_orchestrator_converts_exceptions _ _ _ _ _ (Or.inr ⟨_, rfl, rfl⟩)

/-! Structural lemmas about stripping and line splitting. -/

theorem dropWhile_cons_self {p : Char → Bool} {a : Char} {l : List Char}
    (h : List.dropWhile p (a :: l) = a :: l) : p a = false := by
  by_cases hpa : p a = true
  · rw [List.dropWhile_cons, if_pos hpa] at h
    have hle : (List.dropWhile p l).length ≤ l.length :=
      (List.dropWhile_sublist (l := l) p).length_le
    have hlen := congrArg List.length h
    simp only [List.length_cons] at hlen
    omega
  · simpa using hpa

theorem stripEnds_idem (p : Char → Bool) (s : List Char) :
    List.rdropWhile p (List.dropWhile p (List.rdropWhile p (List.dropWhile p s))) =
      List.rdropWhile p (List.dropWhile p s) := by
  have hufix : List.dropWhile p (List.dropWhile p s) = List.dropWhile p s :=
    List.dropWhile_idempotent p s
  obtain ⟨r, hr⟩ := List.rdropWhile_prefix p (List.dropWhile p s)
  have htfix : List.dropWhile p (List.rdropWhile p (List.dropWhile p s)) =
      List.rdropWhile p (List.dropWhile p s) := by
    cases ht : List.rdropWhile p (List.dropWhile p s) with
    | nil => simp
    | cons a t' =>
      rw [ht] at hr
      have hfix2 : List.dropWhile p (a :: (t' ++ r)) = a :: (t' ++ r) := by
        rw [← List.cons_append, hr]
        exact hufix
      have hpa : p a = false := dropWhile_cons_self hfix2
      rw [List.dropWhile_cons, if_neg (by simp [hpa])]
  rw [htfix, List.rdropWhile_idempotent]

theorem pyStrip_idem (s : List Char) : pyStrip (pyStrip s) = pyStrip s :=
  stripEnds_idem isPyWhitespace s

theorem mem_of_mem_pyStrip {a : Char} {s : List Char} (h : a ∈ pyStrip s) : a ∈ s :=
  (List.dropWhile_sublist isPyWhitespace).subset
    ((List.rdropWhile_prefix _ _).sublist.subset h)

theorem splitOnNlAux_no_nl (s : List Char) :
    '\n' ∉ (splitOnNlAux s).1 ∧ ∀ l ∈ (splitOnNlAux s).2, '\n' ∉ l := by
  induction s with
  | nil => exact ⟨by simp [splitOnNlAux], by simp [splitOnNlAux]⟩
  | cons c cs ih =>
    by_cases hc : c = '\n'
    · subst hc
      simp only [splitOnNlAux, if_pos rfl]
      refine ⟨by simp, ?_⟩
      intro l hl
      rcases List.mem_cons.mp hl with rfl | hl
      · exact ih.1
      · exact ih.2 l hl
    · simp only [splitOnNlAux, if_neg hc]
      refine ⟨?_, ih.2⟩
      intro hmem
      rcases List.mem_cons.mp hmem with heq | hmem
      · exact hc heq.symm
      · exact ih.1 hmem

theorem splitOnNl_no_nl {s raw : List Char} (h : raw ∈ splitOnNl s) : '\n' ∉ raw := by
  rcases List.mem_cons.mp h with rfl | h
  · exact (splitOnNlAux_no_nl s).1
  · exact (splitOnNlAux_no_nl s).2 raw h

/-! Lemmas about the retained-line list of the Cleaner. -/

theorem lineKeep_eq_some {raw l : List Char} (h : lineKeep raw = some l) :
    l = pyStrip raw ∧ keepLine l = true := by
  unfold lineKeep at h
  split at h
  · exact absurd h (by simp)
  · split at h
    · next hk =>
      injection h with h1
      exact ⟨h1.symm, h1 ▸ hk⟩
    · exact absurd h (by simp)

theorem keepLine_props {l : List Char} (h : keepLine l = true) :
    matchesExclude l = false ∧ 10 < l.length ∧
      (l.any isCJK || l.any isAlnumAscii) = true := by
  unfold keepLine at h
  simp only [Bool.and_eq_true, Bool.not_eq_true', decide_eq_true_eq] at h
  exact ⟨h.1.1, h.1.2, h.2⟩

theorem mem_cleanedLines {content l : List Char} (h : l ∈ cleanedLines content) :
    pyStrip l = l ∧ keepLine l = true ∧ '\n' ∉ l := by
  rw [cleanedLines, List.mem_filterMap] at h
  obtain ⟨raw, hraw, hk⟩ := h
  obtain ⟨hl, hkeep⟩ := lineKeep_eq_some hk
  subst hl
  refine ⟨pyStrip_idem raw, hkeep, ?_⟩
  intro hnl
  exact splitOnNl_no_nl hraw (mem_of_mem_pyStrip hnl)

theorem anchorFrom_mem {ql : List Char} {ls s : List (List Char)}
    (h : anchorFrom ql ls = some s) : ∀ l ∈ s, l ∈ ls := by
  induction ls with
  | nil => simp [anchorFrom] at h
  | cons a t ih =>
    rw [anchorFrom] at h
    split at h
    · injection h with h1
      subst h1
      exact fun l hl => hl
    · intro l hl
      exact List.mem_cons_of_mem a (ih h l hl)

theorem anchorFrom_some_shape {ql : List Char} {ls s : List (List Char)}
    (h : anchorFrom ql ls = some s) :
    ∃ a t, s = a :: t ∧ containsSub ql (lowerLine a) = true := by
  induction ls with
  | nil => simp [anchorFrom] at h
  | cons a t ih =>
    rw [anchorFrom] at h
    split at h
    · next hc =>
      injection h with h1
      exact ⟨a, t, h1.symm, hc⟩
    · exact ih h

theorem anchorFrom_none_of_no_match {ql : List Char} {ls : List (List Char)}
    (h : ∀ l ∈ ls, containsSub ql (lowerLine l) = false) : anchorFrom ql ls = none := by
  induction ls with
  | nil => rfl
  | cons a t ih =>
    rw [anchorFrom, if_neg (by simp [h a (List.mem_cons_self a t)])]
    exact ih (fun l hl => h l (List.mem_cons_of_mem a hl))

theorem mem_clean_lines {content l : List Char} {q : Option (List Char)}
    (h : l ∈ clean_lines content q) : l ∈ cleanedLines content := by
  simp only [clean_lines] at h
  split at h
  · simp at h
  · split at h
    · split at h
      · cases hA : anchorFrom (List.map pyToLower _) (cleanedLines content) with
        | none => rw [hA] at h; exact h
        | some s => rw [hA] at h; exact anchorFrom_mem hA l h
      · exact h
    · exact h

/-- C1: every line retained in the Cleaner's output is non-empty after
trimming, longer than 10 characters, matches none of the deny-list patterns,
and contains a CJK ideograph or an ASCII alphanumeric character — for every
input string and every optional query. -/
theorem C1_retained_line_invariants (content : List Char) (query : Option (List Char))
    (l : List Char) (h : l ∈ clean_lines content query) :
    pyStrip l ≠ [] ∧ 10 < l.length ∧ matchesExclude l = false ∧
      (l.any isCJK || l.any isAlnumAscii) = true := by
  obtain ⟨hstrip, hkeep, -⟩ := mem_cleanedLines (mem_clean_lines h)
  obtain ⟨hexc, hlen, hcjk⟩ := keepLine_props hkeep
  refine ⟨?_, hlen, hexc, hcjk⟩
  rw [hstrip]
  intro hnil
  rw [hnil] at hlen
  simp at hlen

/-- Witness for C1 at a concrete input whose single retained line is the
whole content. -/
theorem C1_retained_line_invariants_witness :
    pyStrip ("this is a content line".toList) ≠ [] ∧
      10 < ("this is a content line".toList).length ∧
      matchesExclude ("this is a content line".toList) = false ∧
      (("this is a content line".toList).any isCJK ||
        ("this is a content line".toList).any isAlnumAscii) = true :=
  C1_retained_line_invariants ("this is a content line".toList) none
    ("this is a content line".toList) (by decide)

/-- C6: if a query is supplied, at least one line survives the filter, and no
surviving line's lowercase form contains the lowercase query, `clean_content`
returns the full retained set joined unchanged (silent fallback, no error). -/
theorem C6_anchor_miss_keeps_all (content q : List Char) (hq : q ≠ [])
    (hne : cleanedLines content ≠ [])
    (hmiss : ∀ l ∈ cleanedLines content,
      containsSub (q.map pyToLower) (lowerLine l) = false) :
    clean_content content (some q) = joinLines (cleanedLines content) := by
  have hce : content.isEmpty = false := by
    cases content with
    | nil => exact absurd rfl hne
    | cons c t => rfl
  have hq' : q.isEmpty = false := by
    cases q with
    | nil => exact absurd rfl hq
    | cons c t => rfl
  have hne' : (cleanedLines content).isEmpty = false :=
    List.isEmpty_eq_false.mpr hne
  simp only [clean_content, hce, hq', hne', anchorFrom_none_of_no_match hmiss,
    Bool.not_false, Bool.and_self, Bool.false_eq_true, if_false, if_true]

/-- Witness for C6: one surviving line, query "zebra" found nowhere. -/
theorem C6_anchor_miss_keeps_all_witness :
    clean_content ("hello world line".toList) (some ("zebra".toList)) =
      joinLines (cleanedLines ("hello world line".toList)) :=
  C6_anchor_miss_keeps_all ("hello world line".toList) ("zebra".toList)
    (by decide) (by decide) (by decide)

/-! Lemmas on the shape of locate-step failures, feeding C5. -/

theorem ne_nil_of_containsSub {needle hay : List Char} (hn : needle ≠ [])
    (h : containsSub needle hay = true) : hay ≠ [] := by
  cases hay with
  | nil =>
    rw [containsSub, List.isEmpty_iff] at h
    exact absurd h hn
  | cons c t => simp

theorem find_error_nonempty (o : ExecOutcome) (e : PyExc)
    (h : find_deepseek_tab o = Except.error e) : excText e ≠ [] := by
  cases o with
  | createRaised m0 =>
    have he : find_deepseek_tab (ExecOutcome.createRaised m0) =
        Except.error
          (PyExc.searchError ("Failed to execute AppleScript: ".toList ++ m0)) := rfl
    rw [he] at h
    injection h with h1
    subst h1
    intro hnil
    have h2 := congrArg List.length hnil
    rw [excText, List.length_append] at h2
    simp at h2
  | writeRaised m0 =>
    have he : find_deepseek_tab (ExecOutcome.writeRaised m0) =
        Except.error
          (PyExc.searchError ("Failed to execute AppleScript: ".toList ++ m0)) := rfl
    rw [he] at h
    injection h with h1
    subst h1
    intro hnil
    have h2 := congrArg List.length hnil
    rw [excText, List.length_append] at h2
    simp at h2
  | wrote r =>
    cases r with
    | exitZero out =>
      have he : find_deepseek_tab (ExecOutcome.wrote (RunOutcome.exitZero out)) =
          if containsSub ("ERROR:".toList) (pyStrip out) = true
          then Except.error (PyExc.searchError (pyStrip out))
          else Except.ok (pyStrip out) := rfl
      rw [he] at h
      split at h
      · next hc =>
        injection h with h1
        subst h1
        exact ne_nil_of_containsSub (by decide) hc
      · exact Except.noConfusion h
    | exitNonZero se =>
      have he : find_deepseek_tab (ExecOutcome.wrote (RunOutcome.exitNonZero se)) =
          Except.error
            (PyExc.searchError ("AppleScript execution failed: ".toList ++ se)) := rfl
      rw [he] at h
      injection h with h1
      subst h1
      intro hnil
      have h2 := congrArg List.length hnil
      rw [excText, List.length_append] at h2
      simp at h2
    | raised m0 =>
      have he : find_deepseek_tab (ExecOutcome.wrote (RunOutcome.raised m0)) =
          Except.error
            (PyExc.searchError ("Failed to execute AppleScript: ".toList ++ m0)) := rfl
      rw [he] at h
      injection h with h1
      subst h1
      intro hnil
      have h2 := congrArg List.length hnil
      rw [excText, List.length_append] at h2
      simp at h2

/-- C5: a failure of the tab-locate step yields a Result Record with
`success = false` and a non-empty error field, and under the command-line
entry point (on the supported platform) the process prints
`"Error: <message>"` to the diagnostic stream and exits with status 1. -/
theorem C5_locate_failure_record_and_exit (tabRun : ExecOutcome)
    (extractStep : Except PyExc (List Char)) (q : List Char) (cl : Bool) (e : PyExc)
    (h : find_deepseek_tab tabRun = Except.error e) :
    (search_deepseek (find_deepseek_tab tabRun) extractStep q cl).success = false ∧
    ∃ m, (search_deepseek (find_deepseek_tab tabRun) extractStep q cl).error = some m ∧
      m ≠ [] ∧
      main_model (find_deepseek_tab tabRun) extractStep q cl true =
        { exitCode := 1, stderrText := some ("Error: ".toList ++ m) } := by
  have hs : search_deepseek (find_deepseek_tab tabRun) extractStep q cl =
      failRecord q (excText e) := by
    rw [h]
    rfl
  refine ⟨by rw [hs]; rfl, excText e, by rw [hs]; rfl, find_error_nonempty tabRun e h, ?_⟩
  simp only [main_model, hs, failRecord, Bool.not_true, Bool.false_eq_true, if_false,
    Option.getD_some]

/-- Witness for C5: the bridge reports "ERROR: DeepSeek tab not found". -/
theorem C5_locate_failure_record_and_exit_witness :
    (search_deepseek
        (find_deepseek_tab
          (ExecOutcome.wrote (RunOutcome.exitZero ("ERROR: DeepSeek tab not found".toList))))
        (Except.ok ("page".toList)) ("q".toList) true).success = false ∧
    ∃ m, (search_deepseek
        (find_deepseek_tab
          (ExecOutcome.wrote (RunOutcome.exitZero ("ERROR: DeepSeek tab not found".toList))))
        (Except.ok ("page".toList)) ("q".toList) true).error = some m ∧
      m ≠ [] ∧
      main_model
        (find_deepseek_tab
          (ExecOutcome.wrote (RunOutcome.exitZero ("ERROR: DeepSeek tab not found".toList))))
        (Except.ok ("page".toList)) ("q".toList) true true =
        { exitCode := 1, stderrText := some ("Error: ".toList ++ m) } :=
  C5_locate_failure_record_and_exit
    (ExecOutcome.wrote (RunOutcome.exitZero ("ERROR: DeepSeek tab not found".toList)))
    (Except.ok ("page".toList)) ("q".toList) true
    (PyExc.searchError (pyStrip ("ERROR: DeepSeek tab not found".toList))) rfl

/-! Lemmas connecting `jsIndexOf` with substring containment, and on
stripping around a non-blank marker, feeding C3. -/

theorem jsIndexOfAux_eq_none {q : List Char} :
    ∀ (hay : List Char) (i : Nat),
      jsIndexOfAux q hay i = none ↔ containsSub q hay = false := by
  intro hay
  induction hay with
  | nil =>
    intro i
    rw [jsIndexOfAux, containsSub]
    cases hqe : q.isEmpty
    · simp
    · simp
  | cons c t ih =>
    intro i
    rw [jsIndexOfAux, containsSub]
    cases hp : q.isPrefixOf (c :: t)
    · simpa using ih (i + 1)
    · simp

theorem jsIndexOf_eq_none {q text : List Char} (h : containsSub q text = false) :
    jsIndexOf q text = none :=
  (jsIndexOfAux_eq_none text 0).mpr h

theorem containsSub_of_isPrefixOf {n hay : List Char} (hp : n.isPrefixOf hay = true) :
    containsSub n hay = true := by
  cases hay with
  | nil =>
    have hn : n = [] := List.prefix_nil.mp (List.isPrefixOf_iff_prefix.mp hp)
    simp [containsSub, hn]
  | cons c t =>
    rw [containsSub, hp]
    rfl

theorem rdropWhile_append_keeps {p : Char → Bool} {a b : List Char}
    (hx : ∃ x ∈ b, p x = false) :
    ∃ r, List.rdropWhile p (a ++ b) = a ++ r := by
  have hne : (List.dropWhile p b.reverse).isEmpty = false := by
    rw [List.isEmpty_eq_false]
    intro hnil
    obtain ⟨x, hxb, hpx⟩ := hx
    have := List.dropWhile_eq_nil_iff.mp hnil x (List.mem_reverse.mpr hxb)
    rw [this] at hpx
    exact Bool.noConfusion hpx
  refine ⟨(List.dropWhile p b.reverse).reverse, ?_⟩
  rw [List.rdropWhile, List.reverse_append, List.dropWhile_append, hne]
  simp only [Bool.false_eq_true, if_false]
  rw [List.reverse_append, List.reverse_reverse]

/-- C3 counterexample: for the page text "hello world page text" (which does
not contain the query "query"), `extract_content` does NOT return the
diagnostic string to its caller — the `if "ERROR:" in result` check raises it
as the custom error (`Except.error`), so the claim's "returned as data, not
raised as an exception" fails on the code. -/
theorem C3_counterexample :
    containsSub ("query".toList) ("hello world page text".toList) = false ∧
    (extract_content_onPage ("hello world page text".toList)
        (some ("query".toList))).isOk = false ∧
    extract_content_onPage ("hello world page text".toList) (some ("query".toList)) =
      Except.error
        ("ERROR: Query not found in page\n\nFull text:\nhello world page text".toList) :=
  ⟨rfl, rfl, rfl⟩

/-- C3 amended: when a query is supplied and the page text does not contain
it, the page-context script produces the diagnostic string — the
"ERROR: Query not found in page" marker followed by the first 5000 characters
of the full text — and `extract_content` then detects the "ERROR:" substring
and raises the custom search error carrying that (stripped) string to its
caller, instead of returning it as data. -/
theorem C3_query_not_found_raises (text q : List Char) (hq : q ≠ [])
    (habs : containsSub q text = false) :
    ∃ m, m = pyStrip ("ERROR: Query not found in page\n\nFull text:\n".toList ++
        text.take 5000) ∧
      extract_content_onPage text (some q) = Except.error m ∧
      ("ERROR: Query not found in page".toList).isPrefixOf m = true := by
  have hq' : q.isEmpty = false := by
    cases q with
    | nil => exact absurd rfl hq
    | cons c t => rfl
  have hjs : js_extract_query text q =
      "ERROR: Query not found in page\n\nFull text:\n".toList ++ text.take 5000 := by
    simp only [js_extract_query, jsIndexOf_eq_none habs]
  have hsplit : ("ERROR: Query not found in page\n\nFull text:\n".toList : List Char) =
      "ERROR: Query not found in page".toList ++ "\n\nFull text:\n".toList := by decide
  have hstep1 : List.dropWhile isPyWhitespace
      ("ERROR: Query not found in page\n\nFull text:\n".toList ++ text.take 5000) =
      "ERROR: Query not found in page\n\nFull text:\n".toList ++ text.take 5000 := by
    rw [List.dropWhile_append]
    have h1 : List.dropWhile isPyWhitespace
        ("ERROR: Query not found in page\n\nFull text:\n".toList) =
        "ERROR: Query not found in page\n\nFull text:\n".toList := by decide
    simp only [h1, List.isEmpty_eq_true]
    simp
  obtain ⟨r, hr⟩ := rdropWhile_append_keeps
    (p := isPyWhitespace) (a := "ERROR: Query not found in page".toList)
    (b := "\n\nFull text:\n".toList ++ text.take 5000)
    ⟨':', List.mem_append.mpr (Or.inl (by decide)), by decide⟩
  have hm : pyStrip ("ERROR: Query not found in page\n\nFull text:\n".toList ++
      text.take 5000) = "ERROR: Query not found in page".toList ++ r := by
    rw [pyStrip, hstep1, hsplit, List.append_assoc, hr]
  refine ⟨_, rfl, ?_, ?_⟩
  · have hcs : containsSub ("ERROR:".toList)
        (pyStrip ("ERROR: Query not found in page\n\nFull text:\n".toList ++
          text.take 5000)) = true := by
      apply containsSub_of_isPrefixOf
      rw [hm]
      apply List.isPrefixOf_iff_prefix.mpr
      refine List.IsPrefix.trans ?_
        (List.prefix_append ("ERROR: Query not found in page".toList) r)
      exact List.isPrefixOf_iff_prefix.mp (by decide)
    simp only [extract_content_onPage, hq', Bool.false_eq_true, if_false, hjs, hcs, if_true]
  · rw [hm]
    exact List.isPrefixOf_iff_prefix.mpr (List.prefix_append _ _)

/-- Witness for the amended C3 at a concrete page text and query. -/
theorem C3_query_not_found_raises_witness :
    ∃ m, m = pyStrip ("ERROR: Query not found in page\n\nFull text:\n".toList ++
        ("hello world page text".toList).take 5000) ∧
      extract_content_onPage ("hello world page text".toList) (some ("nope".toList)) =
        Except.error m ∧
      ("ERROR: Query not found in page".toList).isPrefixOf m = true :=
  C3_query_not_found_raises ("hello world page text".toList) ("nope".toList)
    (by decide) (by decide)

/-! Lemmas for the idempotence of the Cleaner (C2): re-splitting a joined
clean output recovers exactly the same retained lines. -/

theorem splitOnNlAux_self {a : List Char} (h : '\n' ∉ a) : splitOnNlAux a = (a, []) := by
  induction a with
  | nil => rfl
  | cons c t ih =>
    have hc : c ≠ '\n' := fun heq => h (heq ▸ List.mem_cons_self c t)
    rw [splitOnNlAux, if_neg hc, ih (fun hm => h (List.mem_cons_of_mem c hm))]

theorem splitOnNlAux_append {a : List Char} (h : '\n' ∉ a) (s : List Char) :
    splitOnNlAux (a ++ '\n' :: s) = (a, (splitOnNlAux s).1 :: (splitOnNlAux s).2) := by
  induction a with
  | nil =>
    rw [List.nil_append, splitOnNlAux, if_pos rfl]
  | cons c t ih =>
    have hc : c ≠ '\n' := fun heq => h (heq ▸ List.mem_cons_self c t)
    rw [List.cons_append, splitOnNlAux, if_neg hc,
      ih (fun hm => h (List.mem_cons_of_mem c hm))]

theorem splitOnNl_single {a : List Char} (h : '\n' ∉ a) : splitOnNl a = [a] := by
  rw [splitOnNl, splitOnNlAux_self h]

theorem splitOnNl_append {a : List Char} (h : '\n' ∉ a) (s : List Char) :
    splitOnNl (a ++ '\n' :: s) = a :: splitOnNl s := by
  rw [splitOnNl, splitOnNlAux_append h, splitOnNl]

theorem splitOnNl_cons_nl (s : List Char) : splitOnNl ('\n' :: s) = [] :: splitOnNl s := by
  rw [splitOnNl, splitOnNlAux, if_pos rfl, splitOnNl]

theorem lineKeep_of_clean {l : List Char} (hstrip : pyStrip l = l)
    (hkeep : keepLine l = true) : lineKeep l = some l := by
  have hne : l.isEmpty = false := by
    obtain ⟨-, hlen, -⟩ := keepLine_props hkeep
    rw [List.isEmpty_eq_false]
    intro hnil
    rw [hnil] at hlen
    simp at hlen
  rw [lineKeep, hstrip, hne]
  simp only [Bool.false_eq_true, if_false, hkeep, if_true]

theorem cleanedLines_joinLines (ls : List (List Char))
    (h : ∀ l ∈ ls, pyStrip l = l ∧ keepLine l = true ∧ '\n' ∉ l) :
    cleanedLines (joinLines ls) = ls := by
  induction ls with
  | nil => rfl
  | cons a t ih =>
    obtain ⟨hs, hk, hn⟩ := h a (List.mem_cons_self a t)
    cases t with
    | nil =>
      show cleanedLines a = [a]
      rw [cleanedLines, splitOnNl_single hn,
        List.filterMap_cons_some (lineKeep_of_clean hs hk), List.filterMap_nil]
    | cons b t' =>
      have hjoin : joinLines (a :: b :: t') = a ++ '\n' :: '\n' :: joinLines (b :: t') := rfl
      rw [hjoin, cleanedLines, splitOnNl_append hn, splitOnNl_cons_nl,
        List.filterMap_cons_some (lineKeep_of_clean hs hk),
        List.filterMap_cons_none (show lineKeep [] = none from rfl), ← cleanedLines,
        ih (fun l hl => h l (List.mem_cons_of_mem a hl))]

theorem joinLines_ne_nil {a : List Char} {t : List (List Char)} (ha : a ≠ []) :
    joinLines (a :: t) ≠ [] := by
  intro hnil
  cases t with
  | nil => exact ha hnil
  | cons b t' => exact ha (List.append_eq_nil.mp hnil).1

theorem clean_content_eq_joinLines (c : List Char) (q : Option (List Char)) :
    clean_content c q = joinLines (clean_lines c q) := by
  cases q with
  | none =>
    simp only [clean_content, clean_lines]
    split
    · next hemp => exact List.isEmpty_iff.mp hemp
    · rfl
  | some qs =>
    simp only [clean_content, clean_lines]
    split
    · next hemp => exact List.isEmpty_iff.mp hemp
    · split
      · cases hA : anchorFrom (qs.map pyToLower) (cleanedLines c) with
        | none => rfl
        | some s => rfl
      · rfl

theorem anchorFrom_clean_lines_stable (x : List Char) (qs : List Char)
    (hqe : qs.isEmpty = false) {a : List Char} {t : List (List Char)}
    (hL : clean_lines x (some qs) = a :: t) :
    anchorFrom (qs.map pyToLower) (a :: t) = some (a :: t) ∨
      anchorFrom (qs.map pyToLower) (a :: t) = none := by
  simp only [clean_lines] at hL
  split at hL
  · exact List.noConfusion hL
  · split at hL
    · cases hA : anchorFrom (qs.map pyToLower) (cleanedLines x) with
      | none =>
        rw [hA, Option.getD_none] at hL
        right
        rw [← hL]
        exact hA
      | some s =>
        rw [hA, Option.getD_some] at hL
        subst hL
        obtain ⟨a', t', hshape, hmatch⟩ := anchorFrom_some_shape hA
        obtain ⟨rfl, rfl⟩ : a = a' ∧ t = t' := by
          injection hshape with h1 h2
          exact ⟨h1, h2⟩
        left
        rw [anchorFrom, if_pos hmatch]
    · next hcond =>
      have hnil : cleanedLines x = [] := by
        cases hcE : (cleanedLines x).isEmpty with
        | false =>
          exfalso
          apply hcond
          simp [hqe, hcE]
        | true => exact List.isEmpty_iff.mp hcE
      rw [hnil] at hL
      exact List.noConfusion hL

/-- C2: the Cleaner is idempotent — for every text `x` and every query
(in particular for texts already free of deny-listed lines, and for outputs of
the Cleaner itself), `clean_content (clean_content x q) q = clean_content x q`. -/
theorem C2_clean_content_idempotent (x : List Char) (q : Option (List Char)) :
    clean_content (clean_content x q) q = clean_content x q := by
  rw [clean_content_eq_joinLines x q]
  have hprops : ∀ l ∈ clean_lines x q, pyStrip l = l ∧ keepLine l = true ∧ '\n' ∉ l :=
    fun l hl => mem_cleanedLines (mem_clean_lines hl)
  cases hL : clean_lines x q with
  | nil => rfl
  | cons a t =>
    rw [hL] at hprops
    have ha := hprops a (List.mem_cons_self a t)
    have hane : a ≠ [] := by
      obtain ⟨-, hk, -⟩ := ha
      obtain ⟨-, hlen, -⟩ := keepLine_props hk
      intro hnil
      rw [hnil] at hlen
      simp at hlen
    have hjne : (joinLines (a :: t)).isEmpty = false :=
      List.isEmpty_eq_false.mpr (joinLines_ne_nil hane)
    have hcl : cleanedLines (joinLines (a :: t)) = a :: t :=
      cleanedLines_joinLines _ hprops
    cases q with
    | none =>
      simp only [clean_content, hjne, Bool.false_eq_true, if_false, hcl]
    | some qs =>
      simp only [clean_content, hjne, Bool.false_eq_true, if_false, hcl]
      by_cases hqe : qs.isEmpty = true
      · simp [hqe]
      · have hqe' : qs.isEmpty = false := by simpa using hqe
        have hcond : (!qs.isEmpty && !(a :: t).isEmpty) = true := by simp [hqe']
        rcases anchorFrom_clean_lines_stable x qs hqe' hL with hA | hA
        · rw [if_pos hcond, hA]
        · rw [if_pos hcond, hA]
